import Mathlib

/-
  Verification development for the row-to-column replication applier
  (src/row_to_column.c and src/bgworker_skeleton.c).

  The decoder is embedded shallowly: the StringInfo cursor of the C code is
  modelled by the list of bytes not yet consumed, so that a read advancing the
  cursor becomes a function returning the value together with the remaining
  bytes.  A pq_ read that would run past the end of the message raises ERROR
  in the C code; here it returns none, and none propagates to the whole
  decode step (an ERROR aborts the enclosing batch).
-/

namespace HTAPsim

/-- Bytes are natural numbers; a message is a list of bytes. -/
abbrev Byte := Nat

/-- Embeds pq_getmsgbyte: one byte, cursor advances by one. -/
def getByte : List Byte → Option (Byte × List Byte)
  | [] => none
  | b :: rest => some (b, rest)

/-- Big-endian value of a byte list, as computed by pq_getmsgint. -/
def beVal (bs : List Byte) : Nat := bs.foldl (fun a b => a * 256 + b) 0

/-- Embeds pq_getmsgint(msg, n): n bytes big-endian. -/
def getInt (n : Nat) (bs : List Byte) : Option (Nat × List Byte) :=
  if n ≤ bs.length then some (beVal (bs.take n), bs.drop n) else none

/-- Embeds pq_getmsgbytes(msg, len): len raw bytes. -/
def getBytes (len : Nat) (bs : List Byte) : Option (List Byte × List Byte) :=
  if len ≤ bs.length then some (bs.take len, bs.drop len) else none

/-- Embeds pq_getmsgstring: bytes up to the next null terminator. -/
def getString : List Byte → Option (List Byte × List Byte)
  | [] => none
  | b :: rest =>
    if b = 0 then some (([] : List Byte), rest)
    else
      match getString rest with
      | some (s, r) => some (b :: s, r)
      | none => none

/-- Renders a byte list as a string (the C code treats values as text). -/
def bytesToString (bs : List Byte) : String := String.mk (bs.map Char.ofNat)

/-- NAMEDATALEN of the C code: strlcpy keeps at most 63 bytes of a name. -/
def NAMEDATALEN : Nat := 64

/-- MAX_COLS of the C code: the fixed size of the coltypes array. -/
def MAX_COLS : Nat := 128

/-- Embeds struct RelInfo.  The coltypes field holds the type ids recorded by
    the most recent RELATION message for this id, in column order; the C code
    stores them in a fixed array of MAX_COLS entries, so a write at an index
    at or beyond MAX_COLS is out of bounds there. -/
structure RelInfo where
  relid : Nat
  relname : String
  ncols : Nat
  coltypes : List Nat
deriving DecidableEq, Repr

/-- Embeds the relmap hash table as an association list. -/
abbrev RelCache := List (Nat × RelInfo)

/-- Embeds hash_search(relmap, key, HASH_FIND, NULL). -/
def relcacheFind (m : RelCache) (k : Nat) : Option RelInfo :=
  match m with
  | [] => none
  | (k2, v) :: rest => if k2 = k then some v else relcacheFind rest k

/-- Embeds hash_search(relmap, key, HASH_ENTER, found) followed by the field
    assignments of the RELATION branch: the entry for the key is created or
    overwritten. -/
def relcacheSet (m : RelCache) (k : Nat) (v : RelInfo) : RelCache :=
  match m with
  | [] => [(k, v)]
  | (k2, v2) :: rest =>
    if k2 = k then (k2, v) :: rest else (k2, v2) :: relcacheSet rest k v

/-- Embeds needs_quotes: INT2OID 21, INT4OID 23, INT8OID 20, FLOAT4OID 700,
    FLOAT8OID 701, NUMERICOID 1700 are unquoted. -/
def needs_quotes (typid : Nat) : Bool :=
  !(typid == 21 || typid == 23 || typid == 20 ||
    typid == 700 || typid == 701 || typid == 1700)

/-- Embeds txn_push: the buffer is linked at the tail of the queue. -/
def txn_push (txns : List (List String)) (t : List String) : List (List String) :=
  txns ++ [t]

/-- Appends mutations to the tail buffer (txn_append_sql on txn_tail). -/
def appendToTail : List (List String) → List String → List (List String)
  | [], _ => []
  | [t], sqls => [t ++ sqls]
  | t :: rest, sqls => t :: appendToTail rest sqls

/-- Embeds the INSERT branch guard: if txn_tail is NULL a fresh buffer is
    created and pushed before anything else happens. -/
def pushIfEmpty (txns : List (List String)) : List (List String) :=
  if txns = [] then txn_push txns [] else txns

/-- Decoder state: the relation cache, the transaction queue head to tail,
    and the elog log lines emitted so far. -/
structure DecState where
  relmap : RelCache
  txns : List (List String)
  log : List String
deriving DecidableEq, Repr

/-- Embeds the skip loop of the unknown-relation INSERT path: a column kind
    other than the null kind 110 is read as a 4-byte length plus that many
    bytes.  Note that the unchanged-toast kind 117 also takes this branch. -/
def skipCols : List Byte → Nat → Option (List Byte)
  | bs, 0 => some bs
  | bs, n + 1 =>
    match getByte bs with
    | none => none
    | some (ck, bs1) =>
      if ck = 110 then skipCols bs1 n
      else
        match getInt 4 bs1 with
        | none => none
        | some (len, bs2) =>
          match getBytes len bs2 with
          | none => none
          | some (_, bs3) => skipCols bs3 n

/-- Embeds the ddl_queue column loop of the INSERT branch.  The index i is
    the loop counter of the C code; a column whose kind byte is 110 (null) or
    117 (unchanged toast) is skipped without consuming further bytes; any
    other kind reads a 4-byte length plus that many bytes, and the value is
    appended to the transaction buffer exactly when i equals 1. -/
def ddlCols : List Byte → Nat → Nat → Option (List String × List Byte)
  | bs, _, 0 => some (([] : List String), bs)
  | bs, i, n + 1 =>
    match getByte bs with
    | none => none
    | some (ck, bs1) =>
      if ck = 110 ∨ ck = 117 then ddlCols bs1 (i + 1) n
      else
        match getInt 4 bs1 with
        | none => none
        | some (len, bs2) =>
          match getBytes len bs2 with
          | none => none
          | some (val, bs3) =>
            match ddlCols bs3 (i + 1) n with
            | none => none
            | some (rest, bs4) =>
              if i = 1 then some (bytesToString val :: rest, bs4)
              else some (rest, bs4)

/-- Single-quote character, as emitted by needs_quotes formatting. -/
def sq : String := String.mk [Char.ofNat 39]

/-- Separator emitted after column i when it is not the last of total. -/
def sepAfter (i total : Nat) : String := if i < total - 1 then ", " else ""

/-- Quote string chosen for column i from the cached type ids.  The C code
    reads coltypes at the message column index; an index beyond the recorded
    entries reads unspecified memory there, modelled by the default 0 (which
    is not a numeric type id, hence quoted); no theorem below depends on that
    region. -/
def quoteOf (r : RelInfo) (i : Nat) : String :=
  if needs_quotes (r.coltypes.getD i 0) then sq else ""

/-- Embeds the regular-table column loop of the INSERT branch: kind 110
    renders the token NULL; any other kind reads a 4-byte length plus value
    bytes and renders the value with the quoting chosen by needs_quotes.
    Note the unchanged-toast kind 117 also takes the value branch here. -/
def insertCols (r : RelInfo) : List Byte → Nat → Nat → Nat → Option (String × List Byte)
  | bs, _, _, 0 => some ("", bs)
  | bs, i, total, n + 1 =>
    match getByte bs with
    | none => none
    | some (ck, bs1) =>
      if ck = 110 then
        match insertCols r bs1 (i + 1) total n with
        | none => none
        | some (rest, bs2) => some ("NULL" ++ sepAfter i total ++ rest, bs2)
      else
        match getInt 4 bs1 with
        | none => none
        | some (len, bs2) =>
          match getBytes len bs2 with
          | none => none
          | some (val, bs3) =>
            match insertCols r bs3 (i + 1) total n with
            | none => none
            | some (rest, bs4) =>
              some (quoteOf r i ++ bytesToString val ++ quoteOf r i ++
                    sepAfter i total ++ rest, bs4)

/-- Embeds the INSERT branch of decode_pgoutput after the tag byte: relation
    id, tuple kind byte (expected N, never checked), column count, then one
    of the three column loops depending on the cache lookup and the cached
    relation name.  The result is the list of SQL strings appended to the
    current transaction buffer: none for an unknown relation, at most the
    ddl value for ddl_queue, one INSERT INTO name_col statement otherwise. -/
def insertMutations (relmap : RelCache) (bs : List Byte) : Option (List String) :=
  match getInt 4 bs with
  | none => none
  | some (relid, bs1) =>
    match getByte bs1 with
    | none => none
    | some (_, bs2) =>
      match getInt 2 bs2 with
      | none => none
      | some (ncols, bs3) =>
        match relcacheFind relmap relid with
        | none =>
          match skipCols bs3 ncols with
          | none => none
          | some _ => some []
        | some r =>
          if r.relname = "ddl_queue" then
            match ddlCols bs3 0 ncols with
            | none => none
            | some (sqls, _) => some sqls
          else
            match insertCols r bs3 0 ncols ncols with
            | none => none
            | some (body, _) =>
              some ["INSERT INTO " ++ r.relname ++ "_col VALUES (" ++ body ++ ");"]

/-- Embeds the per-column loop of the RELATION branch: flags byte, column
    name, 4-byte type id, 4-byte typmod.  The result records the pairs
    (array index written, type id) in loop order; in the C code the write
    lands in the fixed coltypes array of MAX_COLS entries. -/
def relCols : List Byte → Nat → Nat → Option (List (Nat × Nat) × List Byte)
  | bs, _, 0 => some (([] : List (Nat × Nat)), bs)
  | bs, i, n + 1 =>
    match getByte bs with
    | none => none
    | some (_, bs1) =>
      match getString bs1 with
      | none => none
      | some (_, bs2) =>
        match getInt 4 bs2 with
        | none => none
        | some (tid, bs3) =>
          match getInt 4 bs3 with
          | none => none
          | some (_, bs4) =>
            match relCols bs4 (i + 1) n with
            | none => none
            | some (rest, bs5) => some ((i, tid) :: rest, bs5)

/-- Parsed form of a RELATION message payload. -/
structure RelMsg where
  relid : Nat
  nameBytes : List Byte
  ncols : Nat
  colWrites : List (Nat × Nat)
deriving DecidableEq, Repr

/-- Embeds the RELATION branch reads: relation id, schema name, relation
    name, replica identity byte, column count, then the column loop. -/
def parseRelation (bs : List Byte) : Option RelMsg :=
  match getInt 4 bs with
  | none => none
  | some (relid, bs1) =>
    match getString bs1 with
    | none => none
    | some (_, bs2) =>
      match getString bs2 with
      | none => none
      | some (nameB, bs3) =>
        match getByte bs3 with
        | none => none
        | some (_, bs4) =>
          match getInt 2 bs4 with
          | none => none
          | some (ncols, bs5) =>
            match relCols bs5 0 ncols with
            | none => none
            | some (writes, _) =>
              some { relid := relid, nameBytes := nameB, ncols := ncols,
                     colWrites := writes }

/-- Coltype array writes performed by a RELATION message payload. -/
def relationColWrites (bs : List Byte) : Option (List (Nat × Nat)) :=
  match parseRelation bs with
  | none => none
  | some m => some m.colWrites

/-- RelInfo entry built by the RELATION branch: strlcpy truncates the name
    to NAMEDATALEN minus one bytes. -/
def mkRelInfo (m : RelMsg) : RelInfo :=
  { relid := m.relid,
    relname := bytesToString (m.nameBytes.take (NAMEDATALEN - 1)),
    ncols := m.ncols,
    coltypes := m.colWrites.map (fun w => w.2) }

/-- Log line of the RELATION branch. -/
def relationLog (r : RelInfo) : String :=
  "RELATION: " ++ r.relname ++ " (" ++ toString r.ncols ++ " cols)"

/-- Log line of the default branch for an unrecognized tag. -/
def unknownTagLog (t : Byte) : String :=
  "Unknown WAL tag: " ++ bytesToString [t]

/-- Embeds one call of decode_pgoutput as a function of the parts of the
    state it reads, returning the new cache, the new queue and the log lines
    appended; none models an ERROR aborting the batch.  An empty blob
    returns unchanged, matching the length guard of the C code. -/
def decode_step (relmap : RelCache) (txns : List (List String)) (data : List Byte) :
    Option (RelCache × List (List String) × List String) :=
  match data with
  | [] => some (relmap, txns, [])
  | tag :: bs =>
    if tag = 66 then some (relmap, txn_push txns [], [])
    else if tag = 67 then some (relmap, txns, [])
    else if tag = 82 then
      match parseRelation bs with
      | none => none
      | some m =>
        let r := mkRelInfo m
        some (relcacheSet relmap m.relid r, txns, [relationLog r])
    else if tag = 73 then
      match insertMutations relmap bs with
      | none => none
      | some sqls => some (relmap, appendToTail (pushIfEmpty txns) sqls, [])
    else some (relmap, txns, [unknownTagLog tag])

/-- Embeds decode_pgoutput acting on the full decoder state. -/
def decode_pgoutput (st : DecState) (data : List Byte) : Option DecState :=
  match decode_step st.relmap st.txns data with
  | none => none
  | some (c, q, la) => some { relmap := c, txns := q, log := st.log ++ la }

/-- Embeds txn_process_all: every buffer is executed head first, each in
    list order, and the queue is emptied; the second component is the list
    of SQL statements handed to SPI_execute, in execution order. -/
def txn_process_all (st : DecState) : DecState × List String :=
  ({ st with txns := [] }, st.txns.flatten)

/-- Decodes a batch of blobs in order; none if any decode raises ERROR. -/
def decodeAll : DecState → List (List Byte) → Option DecState
  | st, [] => some st
  | st, b :: rest =>
    match decode_pgoutput st b with
    | none => none
    | some st2 => decodeAll st2 rest

/-- One poll iteration on an already fetched batch: decode every blob, then
    execute all transaction buffers in order, as row_to_column_main does. -/
def runBatch (st : DecState) (blobs : List (List Byte)) :
    Option (DecState × List String) :=
  match decodeAll st blobs with
  | none => none
  | some st2 => some (txn_process_all st2)

/-
  Signal and lifecycle model.  Both source files define a worker entry
  point; their signal-visible state is the two sig_atomic_t flags, the
  process latch, and (observably) how many configuration reloads have run.
-/

/-- Signals relevant to the workers. -/
inductive Sig where
  | sighup : Sig
  | sigterm : Sig
deriving DecidableEq, Repr

/-- Signal-visible worker state. -/
structure WorkerState where
  got_sighup : Bool
  got_sigterm : Bool
  latch : Bool
  reloads : Nat
deriving DecidableEq, Repr

/-- Embeds row_to_column_sighup of bgworker_skeleton.c: sets got_sighup and
    the latch. -/
def row_to_column_sighup (s : WorkerState) : WorkerState :=
  { s with got_sighup := true, latch := true }

/-- Embeds row_to_column_sigterm of bgworker_skeleton.c. -/
def row_to_column_sigterm (s : WorkerState) : WorkerState :=
  { s with got_sigterm := true, latch := true }

/-- Embeds handle_sigterm of row_to_column.c. -/
def handle_sigterm (s : WorkerState) : WorkerState :=
  { s with got_sigterm := true, latch := true }

/-- Handler table installed by the pqsignal calls of bgworker_skeleton.c:
    both SIGHUP and SIGTERM have handlers. -/
def skeleton_handlers : Sig → Option (WorkerState → WorkerState)
  | Sig.sighup => some row_to_column_sighup
  | Sig.sigterm => some row_to_column_sigterm

/-- Handler table installed by the pqsignal calls of row_to_column_main in
    row_to_column.c: only SIGTERM has a handler; no SIGHUP handler is ever
    installed. -/
def rtc_handlers : Sig → Option (WorkerState → WorkerState)
  | Sig.sighup => none
  | Sig.sigterm => some handle_sigterm

/-- Delivery of a signal through a handler table: an installed handler runs;
    with no installed handler the flag state is untouched (the process would
    in fact take the default disposition, which sets no flag either). -/
def deliver (handlers : Sig → Option (WorkerState → WorkerState))
    (sig : Sig) (s : WorkerState) : WorkerState :=
  match handlers sig with
  | some h => h s
  | none => s

/-- Embeds one iteration of the while loop of bgworker_skeleton.c:
    WaitLatch then ResetLatch clear the latch, and if got_sighup is set the
    flag is cleared and ProcessConfigFile runs (counted by reloads). -/
def skeleton_loop_iter (s : WorkerState) : WorkerState :=
  let s1 := { s with latch := false }
  if s1.got_sighup then { s1 with got_sighup := false, reloads := s1.reloads + 1 }
  else s1

/-- Embeds the signal-visible effect of one iteration of the while loop of
    row_to_column_main in row_to_column.c: the latch is waited on and reset
    only when the slot returned zero changes; no branch of the loop reads
    got_sighup or reloads configuration. -/
def rtc_loop_iter (zeroChanges : Bool) (s : WorkerState) : WorkerState :=
  if zeroChanges then { s with latch := false } else s

/-
  Encoders for well-formed wire messages, used to quantify theorems over
  the INSERT payloads the decoder receives, and spec-side definitions
  (clearly named spec_) written from the words of the spec for comparison
  with the behavior of the embedded code.
-/

/-- Big-endian 4-byte encoding of a value below 2 to the 32. -/
def be4 (n : Nat) : List Byte :=
  [n / 16777216 % 256, n / 65536 % 256, n / 256 % 256, n % 256]

/-- Big-endian 2-byte encoding of a value below 2 to the 16. -/
def be2 (n : Nat) : List Byte := [n / 256 % 256, n % 256]

/-- One column of an INSERT tuple on the wire: kind byte 110 for null with
    no further bytes, kind byte 117 for an unchanged toasted value with no
    further bytes, or any other kind byte followed by a 4-byte length and
    that many value bytes. -/
inductive WireCol where
  | nul : WireCol
  | unch : WireCol
  | val (ck : Byte) (bs : List Byte) : WireCol
deriving DecidableEq, Repr

/-- Wire encoding of one column. -/
def encCol : WireCol → List Byte
  | WireCol.nul => [110]
  | WireCol.unch => [117]
  | WireCol.val ck bs => ck :: (be4 bs.length ++ bs)

/-- Wire encoding of a column list. -/
def encCols (cols : List WireCol) : List Byte := (cols.map encCol).flatten

/-- Wire encoding of a full INSERT message: tag 73, relation id, tuple kind
    78, column count, columns. -/
def encInsert (relid : Nat) (cols : List WireCol) : List Byte :=
  73 :: (be4 relid ++ (78 :: (be2 cols.length ++ encCols cols)))

/-- Well-formedness of a column: a value column may not reuse the null or
    unchanged kind bytes and its length must fit in 4 bytes. -/
def wfCol : WireCol → Bool
  | WireCol.nul => true
  | WireCol.unch => true
  | WireCol.val ck bs =>
    decide (ck ≠ 110 ∧ ck ≠ 117 ∧ bs.length < 4294967296)

/-- Holds when the column is not an unchanged toasted value. -/
def plainCol : WireCol → Bool
  | WireCol.unch => false
  | _ => true

/-- Bytes of a string, for building concrete payloads. -/
def strBytes (s : String) : List Byte := s.toList.map Char.toNat

/-- Spec 4.G, modelled from the spec: a numeric type id (int16 21, int32 23,
    int64 20, float32 700, float64 701, numeric 1700) renders its text value
    unquoted, any other type id renders it single quoted. -/
def spec_literal (typeId : Nat) (value : String) : String :=
  if typeId = 21 ∨ typeId = 23 ∨ typeId = 20 ∨ typeId = 700 ∨ typeId = 701 ∨
     typeId = 1700
  then value else sq ++ value ++ sq

/-- Spec 4.G, modelled from the spec: a null column renders the token NULL,
    a value column renders per spec_literal against the cached type id of
    its position.  The unchanged-toast case is never used below; theorems
    that mention this definition restrict to plain columns. -/
def spec_renderCol (r : RelInfo) (i : Nat) : WireCol → String
  | WireCol.nul => "NULL"
  | WireCol.unch => ""
  | WireCol.val _ bs => spec_literal (r.coltypes.getD i 0) (bytesToString bs)

/-- Rendered literals of a column list starting at position i. -/
def spec_literals (r : RelInfo) : Nat → List WireCol → List String
  | _, [] => []
  | i, c :: rest => spec_renderCol r i c :: spec_literals r (i + 1) rest

/-- Literals joined positionally with comma separators, as the spec output
    v1, v2, up to vN. -/
def spec_joinComma : List String → String
  | [] => ""
  | v :: rest =>
    match rest with
    | [] => v
    | r2 :: rs => v ++ ", " ++ spec_joinComma (r2 :: rs)

/-- Spec 4.G, modelled from the spec: literals joined positionally. -/
def spec_insert_body (r : RelInfo) (cols : List WireCol) : String :=
  spec_joinComma (spec_literals r 0 cols)

/-- Spec 4.G, modelled from the spec: the full shadow-table statement. -/
def spec_insert_sql (r : RelInfo) (cols : List WireCol) : String :=
  "INSERT INTO " ++ r.relname ++ "_col VALUES (" ++ spec_insert_body r cols ++ ");"

/-- Modelled from the spec: the value of the second non-null, non-unchanged
    column of an INSERT, which the spec says becomes the DDL statement. -/
def spec_ddl_second (cols : List WireCol) : Option String :=
  match cols.filterMap (fun c =>
      match c with
      | WireCol.val _ bs => some (bytesToString bs)
      | _ => none) with
  | _ :: s :: _ => some s
  | _ => none

/-- What the code actually appends on a ddl_queue INSERT: the value of the
    column at position 1, exactly when that column is a value column. -/
def ddl_code_mutations (cols : List WireCol) : List String :=
  match cols.get? 1 with
  | some (WireCol.val _ bs) => [bytesToString bs]
  | _ => []

/-- Values collected by the ddl_queue loop when the loop counter starts at
    index i: a value column is kept exactly when its counter equals 1. -/
def ddlPick : Nat → List WireCol → List String
  | _, [] => []
  | i, WireCol.val _ bs :: rest =>
    (if i = 1 then [bytesToString bs] else []) ++ ddlPick (i + 1) rest
  | i, _ :: rest => ddlPick (i + 1) rest

/-- Body string built by the regular-table column loop over a column list,
    with loop counter i out of total columns. -/
def codeBody (r : RelInfo) : Nat → Nat → List WireCol → String
  | _, _, [] => ""
  | i, total, WireCol.nul :: rest =>
    "NULL" ++ sepAfter i total ++ codeBody r (i + 1) total rest
  | i, total, WireCol.unch :: rest => codeBody r (i + 1) total rest
  | i, total, WireCol.val _ bs :: rest =>
    quoteOf r i ++ bytesToString bs ++ quoteOf r i ++ sepAfter i total ++
      codeBody r (i + 1) total rest

/-- Mutations contributed by a single blob when it is an INSERT message,
    as a function of the cache alone. -/
def blobMutations (relmap : RelCache) (blob : List Byte) : Option (List String) :=
  match blob with
  | 73 :: bs => insertMutations relmap bs
  | _ => none

/-- Mutations contributed by a list of INSERT blobs, in order. -/
def batchMutations (relmap : RelCache) : List (List Byte) → Option (List String)
  | [] => some []
  | b :: rest =>
    match blobMutations relmap b with
    | none => none
    | some s =>
      match batchMutations relmap rest with
      | none => none
      | some s2 => some (s ++ s2)

/-
  Concrete inputs for counterexamples and witnesses.
-/

/-- Relation users of scenario S1: columns id int32 and email text. -/
def usersRel : RelInfo :=
  { relid := 1, relname := "users", ncols := 2, coltypes := [23, 25] }

/-- Cache holding only the users relation. -/
def usersCache : RelCache := [(1, usersRel)]

/-- Known single-text-column relation for the unchanged-toast input. -/
def c1_rel : RelInfo := { relid := 5, relname := "t", ncols := 1, coltypes := [25] }

/-- Cache for the C1 failing input. -/
def c1_cache : RelCache := [(5, c1_rel)]

/-- State for the C1 failing input. -/
def c1_state : DecState := { relmap := c1_cache, txns := [], log := [] }

/-- Valid wire INSERT for relation 5 whose single column is an unchanged
    toasted value: tag, relation id, tuple kind, one column, kind byte 117
    and nothing after it. -/
def c1_blob : List Byte := 73 :: (be4 5 ++ (78 :: (be2 1 ++ [117])))

/-- Three-text-column ddl_queue relation for the C2 counterexample. -/
def ddlRel : RelInfo :=
  { relid := 7, relname := "ddl_queue", ncols := 3, coltypes := [25, 25, 25] }

/-- Cache for the C2 counterexample. -/
def c2_cache : RelCache := [(7, ddlRel)]

/-- Columns of the C2 counterexample: null, then value A, then value B, so
    the second non-null, non-unchanged column carries B. -/
def c2_cols : List WireCol :=
  [WireCol.nul, WireCol.val 116 [65], WireCol.val 116 [66]]

/-- State for the C2 counterexample: one open transaction buffer. -/
def c2_state : DecState := { relmap := c2_cache, txns := [[]], log := [] }

/-- Blob of the C2 counterexample. -/
def c2_blob : List Byte := encInsert 7 c2_cols

/-- Two-text-column ddl_queue relation for the C2 witness, as scenario S4. -/
def ddl2Rel : RelInfo :=
  { relid := 8, relname := "ddl_queue", ncols := 2, coltypes := [25, 25] }

/-- Cache for the C2 witness. -/
def c2w_cache : RelCache := [(8, ddl2Rel)]

/-- Columns of the C2 witness: the second column carries the DDL text. -/
def c2w_cols : List WireCol :=
  [WireCol.val 116 (strBytes "ignored"),
   WireCol.val 116 (strBytes "CREATE TABLE t (x int);")]

/-- State for the C2 witness. -/
def c2w_state : DecState := { relmap := c2w_cache, txns := [[]], log := [] }

/-- State for the C3 counterexample: empty cache, empty queue. -/
def c3_state : DecState := { relmap := [], txns := [], log := [] }

/-- Valid wire INSERT for the unknown relation 999 whose single column is an
    unchanged toasted value. -/
def c3_blob : List Byte := 73 :: (be4 999 ++ (78 :: (be2 1 ++ [117])))

/-- State for the C3 witness: empty cache, one nonempty open buffer. -/
def c3w_state : DecState := { relmap := [], txns := [["keep"]], log := [] }

/-- Columns for the C3 witness: a text value and a null. -/
def c3w_cols : List WireCol := [WireCol.val 116 [97], WireCol.nul]

/-- First transaction of the C4 witness, as scenario S5. -/
def c4_ms1 : List (List Byte) := [encInsert 1 [WireCol.val 116 [49]]]

/-- Second transaction of the C4 witness. -/
def c4_ms2 : List (List Byte) := [encInsert 1 [WireCol.val 116 [50]]]

/-- Columns of scenario S1: text 42 and text a at x. -/
def s1_cols : List WireCol :=
  [WireCol.val 116 [52, 50], WireCol.val 116 (strBytes "a@x")]

/-- State for the C5 witness. -/
def s1_state : DecState := { relmap := usersCache, txns := [], log := [] }

/-- Relation users2 of scenario S2: columns int64 and text. -/
def users2Rel : RelInfo :=
  { relid := 2, relname := "users2", ncols := 2, coltypes := [20, 25] }

/-- Cache for the C6 witness. -/
def c6_cache : RelCache := [(2, users2Rel)]

/-- State for the C6 witness: no open buffer. -/
def c6_state : DecState := { relmap := c6_cache, txns := [], log := [] }

/-- Columns for the C6 witness, as scenario S2. -/
def c6_cols : List WireCol := [WireCol.nul, WireCol.val 116 (strBytes "hello")]

/-- INSERT payload after the tag byte for the C6 witness. -/
def c6_bs : List Byte := be4 2 ++ (78 :: (be2 2 ++ encCols c6_cols))

/-- Wire encoding of one RELATION column block: flags 0, one-letter column
    name, the given type id, typmod 0. -/
def encRelCol (tid : Nat) : List Byte := 0 :: (99 :: (0 :: (be4 tid ++ be4 0)))

/-- RELATION payload declaring 129 columns, one more than MAX_COLS: relation
    id 9, empty schema name, name t, replica identity byte, column count
    129, then 129 column blocks of type id 25. -/
def c7_payload : List Byte :=
  be4 9 ++ ([0] ++ ([116, 0] ++ ([100] ++
    (be2 129 ++ (List.replicate 129 (encRelCol 25)).flatten))))

/-- Quiescent worker state for the C8 counterexample. -/
def s8 : WorkerState :=
  { got_sighup := false, got_sigterm := false, latch := false, reloads := 0 }

/-- State for the C10 witness: empty cache, no open buffer. -/
def c10_state : DecState := { relmap := [], txns := [], log := [] }

/-- Columns for the C10 witness: one text value. -/
def c10_cols : List WireCol := [WireCol.val 116 [97]]

/-
  General lemmas about the reader and the queue.
-/

/-- Reading four bytes of a big-endian encoding recovers the value. -/
theorem getInt_be4 (n : Nat) (rest : List Byte) (h : n < 4294967296) :
    getInt 4 (be4 n ++ rest) = some (n, rest) := by
  simp [getInt, be4, beVal]
  omega

/-- Reading two bytes of a big-endian encoding recovers the value. -/
theorem getInt_be2 (n : Nat) (rest : List Byte) (h : n < 65536) :
    getInt 2 (be2 n ++ rest) = some (n, rest) := by
  simp [getInt, be2, beVal]
  omega

/-- Reading exactly the length of a prefix returns that prefix. -/
theorem getBytes_exact (bs rest : List Byte) :
    getBytes bs.length (bs ++ rest) = some (bs, rest) := by
  simp [getBytes]

/-- Appending nothing to the tail buffer leaves the queue unchanged. -/
theorem appendToTail_nil (q : List (List String)) : appendToTail q [] = q := by
  induction q with
  | nil => rfl
  | cons t rest ih =>
    cases rest with
    | nil => simp [appendToTail]
    | cons r rs => simpa [appendToTail] using ih

/-- Appending to the tail buffer of a queue written as front plus tail. -/
theorem appendToTail_append (q : List (List String)) (t sqls : List String) :
    appendToTail (q ++ [t]) sqls = q ++ [t ++ sqls] := by
  induction q with
  | nil => simp [appendToTail]
  | cons a q2 ih =>
    cases h : q2 ++ [t] with
    | nil => simp at h
    | cons b bs => simp [appendToTail, ← h, ih]

/-- A decoded INSERT changes only the queue: the fresh-buffer guard runs,
    then the mutations computed from the cache and payload are appended to
    the tail buffer. -/
theorem decode_insert (st : DecState) (bs : List Byte) (sqls : List String)
    (h : insertMutations st.relmap bs = some sqls) :
    decode_pgoutput st (73 :: bs) =
      some { relmap := st.relmap,
             txns := appendToTail (pushIfEmpty st.txns) sqls,
             log := st.log } := by
  simp [decode_pgoutput, decode_step, h]

/-- Encoding of a cons splits as one column block then the rest. -/
theorem encCols_cons (c : WireCol) (cs : List WireCol) :
    encCols (c :: cs) = encCol c ++ encCols cs := by
  simp [encCols]

/-- Reading a null-terminated string recovers a zero-free prefix. -/
theorem getString_enc (s rest : List Byte) (h : 0 ∉ s) :
    getString (s ++ 0 :: rest) = some (s, rest) := by
  induction s with
  | nil => simp [getString]
  | cons b bs ih =>
    simp only [List.mem_cons, not_or] at h
    have hb : ¬ b = 0 := fun hb2 => h.1 (hb2.symm)
    simp [getString, hb, ih h.2]

/-- The unknown-relation skip loop consumes exactly the encoded columns when
    every column is null or length-prefixed (no unchanged-toast column). -/
theorem skipCols_enc (cols : List WireCol) (rest : List Byte)
    (hwf : cols.all wfCol = true) (hpl : cols.all plainCol = true) :
    skipCols (encCols cols ++ rest) cols.length = some rest := by
  induction cols with
  | nil => simp [encCols, skipCols]
  | cons c cs ih =>
    simp only [List.all_cons, Bool.and_eq_true] at hwf hpl
    cases c with
    | nul =>
      simp [encCols_cons, encCol, skipCols, getByte, ih hwf.2 hpl.2]
    | unch => simp [plainCol] at hpl
    | val ck bs =>
      simp only [wfCol, decide_eq_true_eq] at hwf
      obtain ⟨⟨h110, _, hlen⟩, hwf2⟩ := hwf
      simp [encCols_cons, encCol, skipCols, getByte, h110, List.append_assoc,
            getInt_be4 _ _ hlen, getBytes_exact, ih hwf2 hpl.2]

/-- The ddl_queue loop consumes exactly the encoded columns and collects
    the value of the column whose loop counter is 1. -/
theorem ddlCols_enc (cols : List WireCol) (i : Nat) (rest : List Byte)
    (hwf : cols.all wfCol = true) :
    ddlCols (encCols cols ++ rest) i cols.length = some (ddlPick i cols, rest) := by
  induction cols generalizing i with
  | nil => simp [encCols, ddlCols, ddlPick]
  | cons c cs ih =>
    simp only [List.all_cons, Bool.and_eq_true] at hwf
    cases c with
    | nul =>
      simp [encCols_cons, encCol, ddlCols, getByte, ddlPick, ih _ hwf.2]
    | unch =>
      simp [encCols_cons, encCol, ddlCols, getByte, ddlPick, ih _ hwf.2]
    | val ck bs =>
      simp only [wfCol, decide_eq_true_eq] at hwf
      obtain ⟨⟨h110, h117, hlen⟩, hwf2⟩ := hwf
      by_cases hi : i = 1
      · simp [encCols_cons, encCol, ddlCols, getByte, h110, h117,
              List.append_assoc, getInt_be4 _ _ hlen, getBytes_exact,
              ih _ hwf2, ddlPick, hi]
      · simp [encCols_cons, encCol, ddlCols, getByte, h110, h117,
              List.append_assoc, getInt_be4 _ _ hlen, getBytes_exact,
              ih _ hwf2, ddlPick, hi]

/-- The regular-table loop consumes exactly the encoded columns and builds
    the body string described by codeBody, when no column is an
    unchanged-toast column. -/
theorem insertCols_enc (r : RelInfo) (cols : List WireCol) (i total : Nat)
    (rest : List Byte)
    (hwf : cols.all wfCol = true) (hpl : cols.all plainCol = true) :
    insertCols r (encCols cols ++ rest) i total cols.length =
      some (codeBody r i total cols, rest) := by
  induction cols generalizing i with
  | nil => simp [encCols, insertCols, codeBody]
  | cons c cs ih =>
    simp only [List.all_cons, Bool.and_eq_true] at hwf hpl
    cases c with
    | nul =>
      simp [encCols_cons, encCol, insertCols, getByte, codeBody, ih _ hwf.2 hpl.2]
    | unch => simp [plainCol] at hpl
    | val ck bs =>
      simp only [wfCol, decide_eq_true_eq] at hwf
      obtain ⟨⟨h110, _, hlen⟩, hwf2⟩ := hwf
      simp [encCols_cons, encCol, insertCols, getByte, h110, List.append_assoc,
            getInt_be4 _ _ hlen, getBytes_exact, ih _ hwf2 hpl.2, codeBody]


/-- The quoting of the code agrees pointwise with the spec formatting
    policy: quotes are added exactly for non-numeric type ids. -/
theorem spec_literal_quote (t : Nat) (s : String) :
    (if needs_quotes t then sq else "") ++ s ++ (if needs_quotes t then sq else "") =
      spec_literal t s := by
  by_cases h : t = 21 ∨ t = 23 ∨ t = 20 ∨ t = 700 ∨ t = 701 ∨ t = 1700
  · rcases h with h | h | h | h | h | h <;> simp [needs_quotes, spec_literal, h]
  · push_neg at h
    obtain ⟨h1, h2, h3, h4, h5, h6⟩ := h
    simp [needs_quotes, spec_literal, h1, h2, h3, h4, h5, h6,
          String.append_assoc]

/-- Same statement through quoteOf. -/
theorem quote_piece (r : RelInfo) (i : Nat) (s : String) :
    quoteOf r i ++ s ++ quoteOf r i = spec_literal (r.coltypes.getD i 0) s := by
  unfold quoteOf
  exact spec_literal_quote (r.coltypes.getD i 0) s

/-- The body string built by the column loop equals the spec rendering when
    the loop starts at counter i with the matching total. -/
theorem codeBody_spec (r : RelInfo) (cols : List WireCol) :
    ∀ i total, total = i + cols.length → cols.all plainCol = true →
      codeBody r i total cols = spec_joinComma (spec_literals r i cols) := by
  induction cols with
  | nil => intro i total _ _; rfl
  | cons c cs ih =>
    intro i total htot hpl
    simp only [List.all_cons, Bool.and_eq_true] at hpl
    cases cs with
    | nil =>
      have hsep : sepAfter i total = "" := by
        simp only [List.length_cons, List.length_nil] at htot
        have h2 : ¬ i < total - 1 := by omega
        simp [sepAfter, h2]
      cases c with
      | nul =>
        simp [codeBody, hsep, spec_literals, spec_joinComma, spec_renderCol]
      | unch => simp [plainCol] at hpl
      | val ck bs =>
        have hq := quote_piece r i (bytesToString bs)
        simp only [codeBody, hsep, spec_literals, spec_joinComma,
                   spec_renderCol, ← hq]
        simp
    | cons c2 cs2 =>
      have hsep : sepAfter i total = ", " := by
        simp only [List.length_cons] at htot
        have h2 : i < total - 1 := by omega
        simp [sepAfter, h2]
      have htot2 : total = (i + 1) + (c2 :: cs2).length := by
        simp only [List.length_cons] at htot ⊢
        omega
      have hrest := ih (i + 1) total htot2 hpl.2
      have hlit : ∃ v vs, spec_literals r (i + 1) (c2 :: cs2) = v :: vs :=
        ⟨spec_renderCol r (i + 1) c2, spec_literals r (i + 1 + 1) cs2, rfl⟩
      obtain ⟨v, vs, hv⟩ := hlit
      cases c with
      | nul =>
        simp [codeBody, hsep, hrest, spec_literals, spec_renderCol, hv,
              spec_joinComma, String.append_assoc]
      | unch => simp [plainCol] at hpl
      | val ck bs =>
        have hq := quote_piece r i (bytesToString bs)
        simp only [codeBody, hsep, hrest, spec_literals, spec_renderCol, hv,
                   spec_joinComma, ← hq]

/-- Once the ddl loop counter is past 1, nothing more is collected. -/
theorem ddlPick_ge_two (cols : List WireCol) : ∀ i, 2 ≤ i → ddlPick i cols = [] := by
  induction cols with
  | nil => intro i _; rfl
  | cons c cs ih =>
    intro i hi
    cases c with
    | nul => simp [ddlPick, ih (i + 1) (by omega)]
    | unch => simp [ddlPick, ih (i + 1) (by omega)]
    | val ck bs =>
      have h1 : ¬ i = 1 := by omega
      simp [ddlPick, h1, ih (i + 1) (by omega)]

/-- Starting at counter 0, the ddl loop collects exactly the value of the
    column at position 1, when that column is a value column. -/
theorem ddlPick_zero (cols : List WireCol) :
    ddlPick 0 cols = ddl_code_mutations cols := by
  cases cols with
  | nil => rfl
  | cons c0 rest =>
    cases rest with
    | nil => cases c0 <;> simp [ddlPick, ddl_code_mutations]
    | cons c1 rest2 =>
      have h2 := ddlPick_ge_two rest2 2 (by omega)
      cases c0 <;> cases c1 <;> simp [ddlPick, ddl_code_mutations, h2]

/-- An encoded INSERT for a relation absent from the cache yields no
    mutations. -/
theorem insertMutations_unknown (relmap : RelCache) (relid : Nat)
    (cols : List WireCol)
    (hfind : relcacheFind relmap relid = none)
    (hwf : cols.all wfCol = true) (hpl : cols.all plainCol = true)
    (hrelid : relid < 4294967296) (hn : cols.length < 65536) :
    insertMutations relmap (be4 relid ++ (78 :: (be2 cols.length ++ encCols cols))) =
      some [] := by
  have hskip : skipCols (encCols cols) cols.length = some [] := by
    simpa using skipCols_enc cols [] hwf hpl
  simp [insertMutations, getInt_be4 _ _ hrelid, getByte, getInt_be2 _ _ hn,
        hfind, hskip]

/-- An encoded INSERT for a cached ddl_queue relation yields the value of
    the column at position 1 exactly when that column is a value column. -/
theorem insertMutations_ddl (relmap : RelCache) (relid : Nat) (r : RelInfo)
    (cols : List WireCol)
    (hfind : relcacheFind relmap relid = some r)
    (hname : r.relname = "ddl_queue")
    (hwf : cols.all wfCol = true)
    (hrelid : relid < 4294967296) (hn : cols.length < 65536) :
    insertMutations relmap (be4 relid ++ (78 :: (be2 cols.length ++ encCols cols))) =
      some (ddl_code_mutations cols) := by
  have hddl : ddlCols (encCols cols) 0 cols.length =
      some (ddl_code_mutations cols, []) := by
    have h := ddlCols_enc cols 0 [] hwf
    simpa [ddlPick_zero] using h
  simp [insertMutations, getInt_be4 _ _ hrelid, getByte, getInt_be2 _ _ hn,
        hfind, hname, hddl]

/-- An encoded INSERT for a cached regular relation yields exactly the
    shadow-table statement described by the spec formatting policy. -/
theorem insertMutations_regular (relmap : RelCache) (relid : Nat) (r : RelInfo)
    (cols : List WireCol)
    (hfind : relcacheFind relmap relid = some r)
    (hname : r.relname ≠ "ddl_queue")
    (hwf : cols.all wfCol = true) (hpl : cols.all plainCol = true)
    (hrelid : relid < 4294967296) (hn : cols.length < 65536) :
    insertMutations relmap (be4 relid ++ (78 :: (be2 cols.length ++ encCols cols))) =
      some [spec_insert_sql r cols] := by
  have hic : insertCols r (encCols cols) 0 cols.length cols.length =
      some (spec_insert_body r cols, []) := by
    have h := insertCols_enc r cols 0 cols.length [] hwf hpl
    have hb := codeBody_spec r cols 0 cols.length (by omega) hpl
    rw [hb] at h
    simpa [spec_insert_body] using h
  simp [insertMutations, getInt_be4 _ _ hrelid, getByte, getInt_be2 _ _ hn,
        hfind, hname, hic, spec_insert_sql]

/-- Decoding an INSERT blob against a queue with an open tail buffer leaves
    everything but the tail buffer unchanged and appends exactly the
    mutations determined by the cache and the blob. -/
theorem decodeInsert_tail (c : RelCache) (q : List (List String))
    (t l d : List String) (b : List Byte)
    (hb : blobMutations c b = some d) :
    decode_pgoutput { relmap := c, txns := q ++ [t], log := l } b =
      some { relmap := c, txns := q ++ [t ++ d], log := l } := by
  cases b with
  | nil => simp [blobMutations] at hb
  | cons hd bs =>
    by_cases h73 : hd = 73
    · subst h73
      simp only [blobMutations] at hb
      have hne : ¬ (q ++ [t] = []) := by simp
      rw [decode_insert _ _ _ hb]
      simp [pushIfEmpty, hne, appendToTail_append]
    · exfalso
      cases hd with
      | zero => simp [blobMutations] at hb
      | succ m =>
        simp only [blobMutations] at hb
        split at hb
        · rename_i heq
          exact h73 (by injection heq)
        · exact Option.noConfusion hb

/-- Decoding a list of INSERT blobs appends all their mutations to the tail
    buffer in order. -/
theorem decodeAll_inserts (c : RelCache) (ms : List (List Byte)) :
    ∀ (q : List (List String)) (t l o : List String),
      batchMutations c ms = some o →
      decodeAll { relmap := c, txns := q ++ [t], log := l } ms =
        some { relmap := c, txns := q ++ [t ++ o], log := l } := by
  induction ms with
  | nil =>
    intro q t l o h
    simp only [batchMutations, Option.some.injEq] at h
    subst h
    simp [decodeAll]
  | cons b rest ih =>
    intro q t l o h
    simp only [batchMutations] at h
    cases hb : blobMutations c b with
    | none => rw [hb] at h; exact absurd h (by simp)
    | some d =>
      rw [hb] at h
      cases hr : batchMutations c rest with
      | none => rw [hr] at h; exact absurd h (by simp)
      | some o2 =>
        rw [hr] at h
        simp only [Option.some.injEq] at h
        subst h
        simp only [decodeAll, decodeInsert_tail c q t l d b hb]
        have := ih q (t ++ d) l o2 hr
        rw [this]
        simp [List.append_assoc]

/-- Decoding a concatenation decodes the first part, then the second from
    the state it reaches. -/
theorem decodeAll_append (st st2 : DecState) (xs ys : List (List Byte))
    (h : decodeAll st xs = some st2) :
    decodeAll st (xs ++ ys) = decodeAll st2 ys := by
  induction xs generalizing st with
  | nil =>
    simp only [decodeAll, Option.some.injEq] at h
    subst h
    simp
  | cons x xs2 ih =>
    simp only [decodeAll] at h ⊢
    cases hx : decode_pgoutput st x with
    | none => rw [hx] at h; exact absurd h (by simp)
    | some st3 =>
      rw [hx] at h
      exact ih st3 h

/-- The cache and queue reached by a batch do not depend on the log lines
    accumulated so far: decode_step reads only the cache and the queue. -/
theorem decodeAll_log_free (bs : List (List Byte)) :
    ∀ (c : RelCache) (q : List (List String)) (l1 l2 : List String),
      (decodeAll { relmap := c, txns := q, log := l1 } bs).map
          (fun s => (s.relmap, s.txns)) =
        (decodeAll { relmap := c, txns := q, log := l2 } bs).map
          (fun s => (s.relmap, s.txns)) := by
  induction bs with
  | nil => intro c q l1 l2; simp [decodeAll]
  | cons b rest ih =>
    intro c q l1 l2
    simp only [decodeAll]
    cases h : decode_step c q b with
    | none => simp [decode_pgoutput, h]
    | some res =>
      obtain ⟨c2, q2, la⟩ := res
      simp only [decode_pgoutput, h]
      exact ih c2 q2 (l1 ++ la) (l2 ++ la)

/-- Parsing one RELATION column block consumes it and records one write. -/
theorem relCols_step (tid : Nat) (htid : tid < 4294967296) (i n : Nat)
    (tail : List Byte) :
    relCols (encRelCol tid ++ tail) i (n + 1) =
      match relCols tail (i + 1) n with
      | none => none
      | some (rest, bs5) => some ((i, tid) :: rest, bs5) := by
  have h0 : (0 : Nat) < 4294967296 := by norm_num
  simp [encRelCol, relCols, getByte, getString, List.append_assoc,
        getInt_be4 _ _ htid, getInt_be4 _ _ h0]

/-- Parsing n identical RELATION column blocks records writes at the n
    consecutive array indexes starting from the loop counter. -/
theorem relCols_blocks (tid : Nat) (htid : tid < 4294967296) :
    ∀ (n i : Nat) (rest : List Byte),
      relCols ((List.replicate n (encRelCol tid)).flatten ++ rest) i n =
        some ((List.range' i n).map (fun j => (j, tid)), rest) := by
  intro n
  induction n with
  | zero => intro i rest; simp [relCols]
  | succ m ih =>
    intro i rest
    have hsplit : (List.replicate (m + 1) (encRelCol tid)).flatten ++ rest =
        encRelCol tid ++ ((List.replicate m (encRelCol tid)).flatten ++ rest) := by
      simp [List.replicate_succ, List.append_assoc]
    rw [hsplit, relCols_step tid htid i m _, ih (i + 1) rest]
    simp [List.range']

/-- Parsing the C7 RELATION header: relation id 9, empty schema, name t,
    replica identity byte, 129 columns, then whatever the column loop
    yields on the block bytes. -/
theorem parseRelation_header (blocks : List Byte) (writes : List (Nat × Nat))
    (hb : relCols blocks 0 129 = some (writes, [])) :
    parseRelation (be4 9 ++ ([0] ++ ([116, 0] ++ ([100] ++
        (be2 129 ++ blocks))))) =
      some { relid := 9, nameBytes := [116], ncols := 129,
             colWrites := writes } := by
  have h9 : (9 : Nat) < 4294967296 := by norm_num
  have h129 : (129 : Nat) < 65536 := by norm_num
  simp [parseRelation, getString, getByte, getInt_be4 _ _ h9,
        getInt_be2 _ _ h129, hb]

/-- Claim C1: the claim states that a valid message is always consumed
    exactly, and in particular that an INSERT column of kind u (unchanged
    toasted value, byte 117) consumes no further payload bytes in every
    path.  The code violates this: on the valid wire INSERT for the known
    relation 5 whose single column is the lone byte 117, the regular-table
    path treats 117 as length-prefixed, reads past the end of the message
    and raises ERROR (decode returns none); the unknown-relation skip loop
    shares the same defect (skipCols on the lone byte 117 also fails).
    Only the ddl_queue path skips kind 117 correctly. -/
theorem C1_unchanged_toast_misparse :
    decode_pgoutput c1_state c1_blob = none ∧ skipCols [117] 1 = none := by
  decide

/-- Claim C2 counterexample: for the ddl_queue INSERT with columns null,
    value A, value B, the spec says the appended statement is the second
    non-null, non-unchanged column, which is B; the code appends the value
    of the column at position 1, which is A. -/
theorem C2_counterexample :
    decode_pgoutput c2_state c2_blob =
      some { relmap := c2_cache, txns := [["A"]], log := [] } ∧
    spec_ddl_second c2_cols = some "B" ∧ ("A" : String) ≠ "B" := by
  decide

/-- Claim C2 as amended: a decoded INSERT whose cached relation name is
    ddl_queue appends at most one mutation: exactly when the column at
    position 1 (the second column positionally) is a value column, and the
    mutation text is that column value; no shadow-table INSERT statement is
    produced either way. -/
theorem C2_ddl_queue_amended (st : DecState) (relid : Nat) (r : RelInfo)
    (cols : List WireCol)
    (hfind : relcacheFind st.relmap relid = some r)
    (hname : r.relname = "ddl_queue")
    (hwf : cols.all wfCol = true)
    (hrelid : relid < 4294967296) (hn : cols.length < 65536) :
    decode_pgoutput st (encInsert relid cols) =
      some { relmap := st.relmap,
             txns := appendToTail (pushIfEmpty st.txns) (ddl_code_mutations cols),
             log := st.log } :=
  decode_insert st _ _
    (insertMutations_ddl st.relmap relid r cols hfind hname hwf hrelid hn)

/-- Claim C2 witness at scenario S4: the DDL statement in the second column
    is appended verbatim, with no shadow-table rewriting. -/
theorem C2_witness :
    decode_pgoutput c2w_state (encInsert 8 c2w_cols) =
      some { relmap := c2w_cache,
             txns := [["CREATE TABLE t (x int);"]], log := [] } :=
  (C2_ddl_queue_amended c2w_state 8 ddl2Rel c2w_cols (by decide) (by decide)
    (by decide) (by decide) (by decide)).trans (by decide)

/-- Claim C3 counterexample: the claim says an INSERT for an uncached
    relation has its payload bytes fully consumed so that later messages
    decode; on the valid wire INSERT for unknown relation 999 whose single
    column is an unchanged toasted value (lone kind byte 117), the skip
    loop instead reads a 4-byte length past the end and raises ERROR, and
    a following well-formed BEGIN is never decoded. -/
theorem C3_counterexample :
    decode_pgoutput c3_state c3_blob = none ∧
    decodeAll c3_state [c3_blob, [66]] = none := by
  decide

/-- Claim C3 as amended: for a decoded INSERT whose relation id is absent
    from the cache, no mutation is appended to any buffer (only the
    implicit empty buffer may be created), the relation cache is unchanged,
    and when every column is null or length-prefixed the payload is
    consumed exactly to the end of the message. -/
theorem C3_unknown_relation_amended (st : DecState) (relid : Nat)
    (cols : List WireCol)
    (hfind : relcacheFind st.relmap relid = none)
    (hwf : cols.all wfCol = true) (hpl : cols.all plainCol = true)
    (hrelid : relid < 4294967296) (hn : cols.length < 65536) :
    decode_pgoutput st (encInsert relid cols) =
      some { relmap := st.relmap, txns := pushIfEmpty st.txns, log := st.log } ∧
    skipCols (encCols cols) cols.length = some [] := by
  have hskip : skipCols (encCols cols) cols.length = some [] := by
    simpa using skipCols_enc cols [] hwf hpl
  have hm := insertMutations_unknown st.relmap relid cols hfind hwf hpl hrelid hn
  refine ⟨?_, hskip⟩
  have hd := decode_insert st _ _ hm
  rw [show encInsert relid cols =
        73 :: (be4 relid ++ (78 :: (be2 cols.length ++ encCols cols))) from rfl,
      hd, appendToTail_nil]

/-- Claim C3 witness: a two-column insert for an unknown relation against a
    queue holding one open buffer leaves the buffer contents and the cache
    unchanged and consumes the payload exactly. -/
theorem C3_witness :
    decode_pgoutput c3w_state (encInsert 999 c3w_cols) =
      some { relmap := [], txns := [["keep"]], log := [] } ∧
    skipCols (encCols c3w_cols) c3w_cols.length = some [] := by
  have h := C3_unknown_relation_amended c3w_state 999 c3w_cols (by decide)
    (by decide) (by decide) (by decide) (by decide)
  exact ⟨h.1.trans (by decide), h.2⟩

/-- Claim C4: decoding BEGIN, the inserts of transaction one, COMMIT,
    BEGIN, the inserts of transaction two, COMMIT against an empty queue
    and then draining applies every statement of transaction one strictly
    before any statement of transaction two; within each buffer the
    mutations keep arrival order and buffers are applied head first, so the
    applied list is exactly the first mutation list followed by the
    second. -/
theorem C4_txn_ordering (c : RelCache) (l : List String)
    (ms1 ms2 : List (List Byte)) (o1 o2 : List String)
    (h1 : batchMutations c ms1 = some o1)
    (h2 : batchMutations c ms2 = some o2) :
    runBatch { relmap := c, txns := [], log := l }
        ([[66]] ++ ms1 ++ ([[67], [66]] ++ (ms2 ++ [[67]]))) =
      some ({ relmap := c, txns := [], log := l }, o1 ++ o2) := by
  have hB1 : decodeAll { relmap := c, txns := [], log := l } [[66]] =
      some { relmap := c, txns := [[]], log := l } := by
    simp [decodeAll, decode_pgoutput, decode_step, txn_push]
  have hms1 : decodeAll { relmap := c, txns := [[]], log := l } ms1 =
      some { relmap := c, txns := [o1], log := l } := by
    simpa using decodeAll_inserts c ms1 [] [] l o1 h1
  have e1 : decodeAll { relmap := c, txns := [], log := l } ([[66]] ++ ms1) =
      some { relmap := c, txns := [o1], log := l } := by
    rw [decodeAll_append _ _ _ _ hB1, hms1]
  have hCB : decodeAll { relmap := c, txns := [o1], log := l } [[67], [66]] =
      some { relmap := c, txns := [o1, []], log := l } := by
    simp [decodeAll, decode_pgoutput, decode_step, txn_push]
  have hms2 : decodeAll { relmap := c, txns := [o1, []], log := l } ms2 =
      some { relmap := c, txns := [o1, o2], log := l } := by
    simpa using decodeAll_inserts c ms2 [o1] [] l o2 h2
  have hC2 : decodeAll { relmap := c, txns := [o1, o2], log := l } [[67]] =
      some { relmap := c, txns := [o1, o2], log := l } := by
    simp [decodeAll, decode_pgoutput, decode_step]
  have hall : decodeAll { relmap := c, txns := [], log := l }
      ([[66]] ++ ms1 ++ ([[67], [66]] ++ (ms2 ++ [[67]]))) =
      some { relmap := c, txns := [o1, o2], log := l } := by
    rw [decodeAll_append _ _ _ _ e1, decodeAll_append _ _ _ _ hCB,
        decodeAll_append _ _ _ _ hms2, hC2]
  simp only [runBatch, hall, txn_process_all]
  simp

/-- Claim C4 witness at scenario S5: two single-insert transactions are
    applied in order, transaction one first. -/
theorem C4_witness :
    runBatch { relmap := usersCache, txns := [], log := [] }
        ([[66]] ++ c4_ms1 ++ ([[67], [66]] ++ (c4_ms2 ++ [[67]]))) =
      some ({ relmap := usersCache, txns := [], log := [] },
        ["INSERT INTO users_col VALUES (1);",
         "INSERT INTO users_col VALUES (2);"]) :=
  C4_txn_ordering usersCache [] c4_ms1 c4_ms2
    ["INSERT INTO users_col VALUES (1);"]
    ["INSERT INTO users_col VALUES (2);"] (by decide) (by decide)

/-- Claim C5: a decoded INSERT into a known relation other than ddl_queue
    appends exactly the statement INSERT INTO name_col VALUES (v1, ..., vN);
    where a null column renders the token NULL, a column whose cached type
    id is one of int16, int32, int64, float32, float64, numeric renders its
    text value unquoted, and every other column renders its text value in
    single quotes. -/
theorem C5_literal_formatting (st : DecState) (relid : Nat) (r : RelInfo)
    (cols : List WireCol)
    (hfind : relcacheFind st.relmap relid = some r)
    (hname : r.relname ≠ "ddl_queue")
    (hwf : cols.all wfCol = true) (hpl : cols.all plainCol = true)
    (hrelid : relid < 4294967296) (hn : cols.length < 65536) :
    decode_pgoutput st (encInsert relid cols) =
      some { relmap := st.relmap,
             txns := appendToTail (pushIfEmpty st.txns) [spec_insert_sql r cols],
             log := st.log } :=
  decode_insert st _ _
    (insertMutations_regular st.relmap relid r cols hfind hname hwf hpl hrelid hn)

/-- Claim C5 witness at scenario S1: the insert of text 42 and text a at x
    into relation users yields INSERT INTO users_col VALUES (42, quoted
    a at x); the int32 column is unquoted and the text column quoted. -/
theorem C5_witness :
    decode_pgoutput s1_state (encInsert 1 s1_cols) =
      some { relmap := usersCache,
             txns := [["INSERT INTO users_col VALUES (42, " ++ sq ++ "a@x" ++
                       sq ++ ");"]],
             log := [] } :=
  (C5_literal_formatting s1_state 1 usersRel s1_cols (by decide) (by decide)
    (by decide) (by decide) (by decide) (by decide)).trans (by decide)

/-- Claim C6: an INSERT decoded while no transaction buffer is open creates
    a fresh buffer, enqueues it at the tail, appends its mutations to that
    buffer, and the batch-end drain applies that buffer like any other. -/
theorem C6_implicit_buffer (st : DecState) (bs : List Byte) (sqls : List String)
    (hempty : st.txns = [])
    (hm : insertMutations st.relmap bs = some sqls) :
    decode_pgoutput st (73 :: bs) =
      some { relmap := st.relmap, txns := [sqls], log := st.log } ∧
    txn_process_all { relmap := st.relmap, txns := [sqls], log := st.log } =
      ({ relmap := st.relmap, txns := [], log := st.log }, sqls) := by
  constructor
  · rw [decode_insert st bs sqls hm, hempty]
    simp [pushIfEmpty, txn_push, appendToTail]
  · simp [txn_process_all]

/-- Claim C6 witness at scenario S2 shape: an insert with no preceding
    BEGIN opens a buffer, the statement lands in it, and the drain applies
    it. -/
theorem C6_witness :
    decode_pgoutput c6_state (73 :: c6_bs) =
      some { relmap := c6_cache,
             txns := [["INSERT INTO users2_col VALUES (NULL, " ++ sq ++
                       "hello" ++ sq ++ ");"]],
             log := [] } ∧
    txn_process_all { relmap := c6_cache,
                      txns := [["INSERT INTO users2_col VALUES (NULL, " ++
                                sq ++ "hello" ++ sq ++ ");"]],
                      log := [] } =
      ({ relmap := c6_cache, txns := [], log := [] },
        ["INSERT INTO users2_col VALUES (NULL, " ++ sq ++ "hello" ++ sq ++
         ");"]) :=
  C6_implicit_buffer c6_state c6_bs
    ["INSERT INTO users2_col VALUES (NULL, " ++ sq ++ "hello" ++ sq ++ ");"]
    (by decide) (by decide)

set_option maxRecDepth 8000 in
/-- Claim C7: the claim states that a RELATION message never records more
    than MAX_COLS type ids, all within the fixed 128-entry array.  The code
    has no clamp: the payload below declares 129 columns and the column
    loop records 129 writes, including one at index 128, which is outside
    the array bounds declared in the C struct (an out-of-bounds write). -/
theorem C7_relation_write_overflow :
    relationColWrites c7_payload =
      some ((List.range' 0 129).map (fun j => (j, 25))) ∧
    (128, 25) ∈ (List.range' 0 129).map (fun j => (j, 25)) ∧
    ((List.range' 0 129).map (fun j => (j, 25))).length = 129 ∧
    ¬ (128 < MAX_COLS) := by
  refine ⟨?_, by decide, by decide, by decide⟩
  have hblocks := relCols_blocks 25 (by norm_num) 129 0 []
  rw [List.append_nil] at hblocks
  have hp : parseRelation c7_payload =
      some { relid := 9, nameBytes := [116], ncols := 129,
             colWrites := (List.range' 0 129).map (fun j => (j, 25)) } :=
    parseRelation_header _ _ hblocks
  simp [relationColWrites, hp]

/-- Claim C8 counterexample: the worker of row_to_column.c installs no
    SIGHUP handler, so receipt of SIGHUP sets no reload flag and wakes no
    latch, and its loop performs no configuration reload. -/
theorem C8_counterexample :
    rtc_handlers Sig.sighup = none ∧
    deliver rtc_handlers Sig.sighup s8 = s8 ∧
    (rtc_loop_iter true (deliver rtc_handlers Sig.sighup s8)).reloads = 0 := by
  exact ⟨rfl, rfl, rfl⟩

/-- Claim C8 as amended: in the skeleton worker of bgworker_skeleton.c,
    SIGHUP sets got_sighup and wakes the latch, and the next loop iteration
    performs exactly one configuration reload and clears the flag; the
    worker of row_to_column.c installs no SIGHUP handler and its loop never
    reloads. -/
theorem C8_sighup_reload_amended (s : WorkerState) (z : Bool) :
    deliver skeleton_handlers Sig.sighup s =
      { s with got_sighup := true, latch := true } ∧
    (skeleton_loop_iter (deliver skeleton_handlers Sig.sighup s)).reloads =
      s.reloads + 1 ∧
    (skeleton_loop_iter (deliver skeleton_handlers Sig.sighup s)).got_sighup =
      false ∧
    (rtc_loop_iter z s).reloads = s.reloads := by
  refine ⟨rfl, ?_, ?_, ?_⟩
  · simp [deliver, skeleton_handlers, row_to_column_sighup, skeleton_loop_iter]
  · simp [deliver, skeleton_handlers, row_to_column_sighup, skeleton_loop_iter]
  · cases z <;> simp [rtc_loop_iter]

/-- Claim C9: two runs over the same blob sequence from an empty queue and
    the same cache produce the same applied SQL strings in the same order,
    whatever log state each run carries. -/
theorem C9_batch_determinism (c : RelCache) (l1 l2 : List String)
    (blobs : List (List Byte)) :
    (runBatch { relmap := c, txns := [], log := l1 } blobs).map (fun p => p.2) =
      (runBatch { relmap := c, txns := [], log := l2 } blobs).map (fun p => p.2) := by
  have h := decodeAll_log_free blobs c [] l1 l2
  cases h1 : decodeAll { relmap := c, txns := [], log := l1 } blobs with
  | none =>
    rw [h1] at h
    cases h2 : decodeAll { relmap := c, txns := [], log := l2 } blobs with
    | none => simp [runBatch, h1, h2]
    | some s2 => rw [h2] at h; simp at h
  | some s1 =>
    rw [h1] at h
    cases h2 : decodeAll { relmap := c, txns := [], log := l2 } blobs with
    | none => rw [h2] at h; simp at h
    | some s2 =>
      rw [h2] at h
      simp only [Option.map_some', Option.some.injEq, Prod.mk.injEq] at h
      simp [runBatch, h1, h2, txn_process_all, h.2]

/-- Claim C10: an INSERT for an unknown relation arriving with no open
    buffer still creates and enqueues a fresh empty buffer at the tail
    (the buffer is created before the cache lookup), and draining that
    empty buffer applies no statements. -/
theorem C10_unknown_insert_empty_queue (st : DecState) (relid : Nat)
    (cols : List WireCol)
    (hempty : st.txns = [])
    (hfind : relcacheFind st.relmap relid = none)
    (hwf : cols.all wfCol = true) (hpl : cols.all plainCol = true)
    (hrelid : relid < 4294967296) (hn : cols.length < 65536) :
    decode_pgoutput st (encInsert relid cols) =
      some { relmap := st.relmap, txns := [[]], log := st.log } ∧
    (txn_process_all { relmap := st.relmap, txns := [[]], log := st.log }).2 = [] := by
  have hm := insertMutations_unknown st.relmap relid cols hfind hwf hpl hrelid hn
  constructor
  · have hd := decode_insert st _ _ hm
    rw [show encInsert relid cols =
          73 :: (be4 relid ++ (78 :: (be2 cols.length ++ encCols cols))) from rfl,
        hd, hempty]
    simp [pushIfEmpty, txn_push, appendToTail]
  · simp [txn_process_all]

/-- Claim C10 witness: a one-column insert for the unknown relation 999
    with an empty queue leaves one empty buffer whose drain applies
    nothing. -/
theorem C10_witness :
    decode_pgoutput c10_state (encInsert 999 c10_cols) =
      some { relmap := [], txns := [[]], log := [] } ∧
    (txn_process_all { relmap := ([] : RelCache), txns := [[]],
                       log := ([] : List String) }).2 = [] := by
  have h := C10_unknown_insert_empty_queue c10_state 999 c10_cols (by decide)
    (by decide) (by decide) (by decide) (by decide) (by decide)
  exact ⟨h.1, h.2⟩
